import Mathlib

/-!
Verification of the `toolcallfix` streaming transcoder of llm-api-relay.

The Go code in `toolcallfix/transform.go` is shallowly embedded here.
Strings are modelled through their character lists; the SSE line level is
modelled by the `SSELine` type (JSON encoding/decoding of envelopes and the
surrounding whitespace trimming done by the line framer are abstracted into
the `SSELine` constructors); the random UUID suffix of synthesized tool-call
ids is modelled by an explicit generator argument `gen` indexed by the
per-stream call counter.
-/

namespace Toolcallfix

/-! ## Character and list utilities -/

/-- The ASCII fragment of Go `unicode.IsSpace` (used by `strings.TrimSpace`).
Inputs considered in this development contain no exotic Unicode spaces. -/
def goSpace (c : Char) : Bool :=
  c = ' ' || c = '\t' || c = '\n' || c = '\x0b' || c = '\x0c' || c = '\r'

/-- The RE2 character class `\s`, namely `[\t\n\x0c\r ]`. -/
def rxSpace (c : Char) : Bool :=
  c = '\t' || c = '\n' || c = '\x0c' || c = '\r' || c = ' '

/-- Index of the first occurrence of `pat` in a list (model of Go
`strings.Index`, at character rather than byte granularity; both sides of
the model slice at the same occurrence, so the unit difference is
immaterial). -/
def firstIdxL (pat : List Char) : List Char → Option Nat
  | [] => if pat.isPrefixOf ([] : List Char) then some 0 else none
  | c :: t => if pat.isPrefixOf (c :: t) then some 0 else (firstIdxL pat t).map (· + 1)

/-- Model of Go `strings.Contains`. -/
def containsL (s pat : List Char) : Bool := (firstIdxL pat s).isSome

/-- Split a list at the first occurrence of `pat`: the part before the
occurrence and the part after it. -/
def splitAtFirst (pat : List Char) : List Char → Option (List Char × List Char)
  | [] => if pat.isPrefixOf ([] : List Char) then some ([], []) else none
  | c :: t =>
    if pat.isPrefixOf (c :: t) then some ([], (c :: t).drop pat.length)
    else (splitAtFirst pat t).map (fun p => (c :: p.1, p.2))

/-! ## Marker constants -/

def tcOpen : List Char := "<tool_call>".data
def tcClose : List Char := "</tool_call>".data
def akOpen : List Char := "<arg_key>".data
def akClose : List Char := "</arg_key>".data
def avOpen : List Char := "<arg_value>".data
def avClose : List Char := "</arg_value>".data

/-! ## The argument regex, modelled as a sequential scanner

The Go code matches `(?s)<arg_key>(.*?)</arg_key>\s*<arg_value>(.*?)</arg_value>`
with `FindAllStringSubmatch`.  Because the pattern starts with a literal, a
match can only start at an occurrence of `<arg_key>`; the lazy groups take the
shortest text compatible with a complete match; `\s*` is deterministic because
the literal that follows it starts with a non-space character.  The functions
below implement exactly this leftmost, lazy, sequential semantics. -/

/-- The regex tail `\s*<arg_value>(.*?)</arg_value>` after a candidate
`</arg_key>` boundary: skip spaces, require the value-open literal, then take
the shortest text before a `</arg_value>`. -/
def matchValuePart (s : List Char) : Option (List Char × List Char) :=
  let s1 := s.dropWhile rxSpace
  if avOpen.isPrefixOf s1 then splitAtFirst avClose (s1.drop avOpen.length) else none

/-- Lazy group 1: the shortest text before a `</arg_key>` from which the rest
of the pattern matches; returns (group 1, group 2, rest of input). -/
def matchAfterKeyOpen : List Char → Option (List Char × List Char × List Char)
  | [] => none
  | c :: t =>
    match
      if akClose.isPrefixOf (c :: t) then matchValuePart ((c :: t).drop akClose.length)
      else none
    with
    | some (v, r) => some ([], v, r)
    | none => (matchAfterKeyOpen t).map (fun p => (c :: p.1, p.2.1, p.2.2))

/-- Leftmost scan for all non-overlapping matches; a successful match consumes
at least one character, so `s.length` is enough fuel. -/
def findArgPairsAux (fuel : Nat) (s : List Char) : List (List Char × List Char) :=
  match fuel, s with
  | 0, _ => []
  | _ + 1, [] => []
  | fuel + 1, c :: t =>
    match
      if akOpen.isPrefixOf (c :: t) then matchAfterKeyOpen ((c :: t).drop akOpen.length)
      else none
    with
    | some (g1, v, r) => (g1, v) :: findArgPairsAux fuel r
    | none => findArgPairsAux fuel t

/-- All matches of the argument regex (group 1, group 2 pairs). -/
def findArgPairs (s : List Char) : List (List Char × List Char) :=
  findArgPairsAux s.length s

/-! ## String wrappers -/

def trimLeftL (l : List Char) : List Char := l.dropWhile goSpace

def trimRightL (l : List Char) : List Char := (l.reverse.dropWhile goSpace).reverse

def trimSpaceL (l : List Char) : List Char := trimRightL (trimLeftL l)

/-- Model of Go `strings.TrimSpace`. -/
def trimSpace (s : String) : String := String.mk (trimSpaceL s.data)

/-- Model of Go `strings.TrimPrefix`: drop the marker when present, otherwise
return the string unchanged. -/
def trimPrefixGo (s p : String) : String :=
  if p.data.isPrefixOf s.data then String.mk (s.data.drop p.data.length) else s

/-- Model of Go `strings.TrimSuffix`. -/
def trimSuffixGo (s p : String) : String :=
  if p.data.isSuffixOf s.data then String.mk (s.data.take (s.data.length - p.data.length)) else s

def strContains (s pat : String) : Bool := containsL s.data pat.data

def firstIdxStr (s pat : String) : Option Nat := firstIdxL pat.data s.data

def strTake (s : String) (n : Nat) : String := String.mk (s.data.take n)

def strDrop (s : String) (n : Nat) : String := String.mk (s.data.drop n)

/-! ## Data model (transform.go structs) -/

structure FunctionCall where
  name : String
  arguments : String
deriving Repr, DecidableEq

structure ToolCall where
  id : String
  type : String
  index : Nat
  function : FunctionCall
deriving Repr, DecidableEq

structure Delta where
  content : String
  reasoningContent : Option String
  toolCalls : List ToolCall
deriving Repr, DecidableEq

structure Choice where
  index : Nat
  delta : Delta
  logprobs : Option String
  finishReason : Option String
  stopReason : Option Int
  tokenIDs : Option String
deriving Repr, DecidableEq

structure Usage where
  promptTokens : Nat
  totalTokens : Nat
  completionTokens : Nat
deriving Repr, DecidableEq

structure ChatCompletionChunk where
  id : String
  object : String
  created : Int
  model : String
  choices : List Choice
  usage : Option Usage
deriving Repr, DecidableEq

structure ToolCallArg where
  key : String
  value : String
deriving Repr, DecidableEq

structure ParsedToolCall where
  name : String
  args : List ToolCallArg
deriving Repr, DecidableEq

/-! ## parseToolCallXML -/

/-- Model of `parseToolCallXML` in transform.go.  The regex scan is
`findArgPairs`; as in the Go loop, each key is trimmed of whitespace and each
value is kept as matched. -/
def parseToolCallXML (xml : String) : Except String ParsedToolCall :=
  let inner := trimSpace (trimSuffixGo (trimPrefixGo xml "<tool_call>") "</tool_call>")
  if inner = "" then .error "empty tool call"
  else
    let nameArgs :=
      match firstIdxStr inner "<arg_key>" with
      | none => (trimSpace inner, "")
      | some idx => (trimSpace (strTake inner idx), strDrop inner idx)
    .ok { name := nameArgs.1
          args := (findArgPairs nameArgs.2.data).map
            (fun m => { key := trimSpace (String.mk m.1), value := String.mk m.2 }) }

/-! ## argsToJSON

The Go function pours the ordered argument list into a `map[string]string`
(assignment overwrites, so the last value per key wins) and then marshals the
map with `encoding/json`, which emits the keys in sorted order with JSON/HTML
escaping.  `json.Marshal` cannot fail on a string map, so the Go error branch
is unreachable and not modelled. -/

def hexDigit (n : Nat) : Char :=
  if n < 10 then Char.ofNat (n + 48) else Char.ofNat (n + 87)

/-- `encoding/json` string escaping with the default HTML escaping. -/
def jsonEscapeChar (c : Char) : List Char :=
  if c = '"' then ['\\', '"']
  else if c = '\\' then ['\\', '\\']
  else if c = '\n' then ['\\', 'n']
  else if c = '\r' then ['\\', 'r']
  else if c = '\t' then ['\\', 't']
  else if c = '<' then "\\u003c".data
  else if c = '>' then "\\u003e".data
  else if c = '&' then "\\u0026".data
  else if c.toNat < 32 then
    "\\u00".data ++ [hexDigit (c.toNat / 16), hexDigit (c.toNat % 16)]
  else if c = ' ' then "\\u2028".data
  else if c = ' ' then "\\u2029".data
  else [c]

def jsonQuote (s : String) : String :=
  String.mk ('"' :: (s.data.map jsonEscapeChar).flatten ++ ['"'])

/-- Assignment into the Go map, modelled as an association list with unique
keys: overwrite the entry when the key is present, append otherwise. -/
def insertLast (m : List (String × String)) (k v : String) : List (String × String) :=
  if m.any (fun p => p.1 == k) then m.map (fun p => if p.1 == k then (k, v) else p)
  else m ++ [(k, v)]

def buildMap (args : List ToolCallArg) : List (String × String) :=
  args.foldl (fun m a => insertLast m a.key a.value) []

def pairLe (p q : String × String) : Bool := !(decide (q.1 < p.1))

def insertPairSorted (p : String × String) :
    List (String × String) → List (String × String)
  | [] => [p]
  | q :: t => if pairLe p q then p :: q :: t else q :: insertPairSorted p t

/-- `encoding/json` marshals a map with its keys in sorted order. -/
def sortPairs (l : List (String × String)) : List (String × String) :=
  l.foldr insertPairSorted []

/-- The key/value pairs of the canonical argument object, in serialization
order: the deduplicated (last-write-wins) map entries, keys sorted. -/
def canonicalPairs (args : List ToolCallArg) : List (String × String) :=
  sortPairs (buildMap args)

/-- Model of `argsToJSON` in transform.go. -/
def argsToJSON (args : List ToolCallArg) : String :=
  if args.isEmpty then "\x7b\x7d"
  else
    "\x7b" ++
      String.intercalate ","
        ((canonicalPairs args).map (fun p => jsonQuote p.1 ++ ":" ++ jsonQuote p.2)) ++
      "\x7d"

/-! ## The stream transformer -/

/-- One line of the SSE stream, after framing.  `blank` is a (trimmed-)empty
line, `done` the terminal sentinel `data: [DONE]`, `noPrefix` a line that does
not start with `data: `, `badJSON` a `data: `-prefixed line whose payload does
not decode into a chunk, and `chunk` a decoded envelope. -/
inductive SSELine where
  | blank : SSELine
  | done : SSELine
  | noPrefix (line : String) : SSELine
  | badJSON (line : String) : SSELine
  | chunk (c : ChatCompletionChunk) : SSELine
deriving Repr, DecidableEq

/-- The transformer state (struct `StreamTransformer`). -/
structure StreamTransformer where
  buffer : String
  inToolCall : Bool
  lastChunk : Option ChatCompletionChunk
  toolCallIndex : Nat
deriving Repr, DecidableEq

/-- `NewStreamTransformer`. -/
def NewStreamTransformer : StreamTransformer :=
  { buffer := "", inToolCall := false, lastChunk := none, toolCallIndex := 0 }

/-- Fallback for the metadata template; in Go `lastChunk` is a nil pointer
until the first decoded chunk, and it is always set before any synthesized
event is built, so this default is never observable. -/
def emptyChunk : ChatCompletionChunk :=
  { id := "", object := "", created := 0, model := "", choices := [], usage := none }

def createContentChunk (t : StreamTransformer) (content : String)
    (finishReason : Option String) : ChatCompletionChunk :=
  let lc := t.lastChunk.getD emptyChunk
  { id := lc.id, object := lc.object, created := lc.created, model := lc.model
    choices := [{ index := 0
                  delta := { content := content, reasoningContent := none, toolCalls := [] }
                  logprobs := none, finishReason := finishReason, stopReason := none
                  tokenIDs := none }]
    usage := none }

/-- `createToolCallChunk`; the UUID fragment is `gen` applied to the current
call counter. -/
def createToolCallChunk (gen : Nat → String) (t : StreamTransformer)
    (parsed : ParsedToolCall) : ChatCompletionChunk :=
  let lc := t.lastChunk.getD emptyChunk
  { id := lc.id, object := lc.object, created := lc.created, model := lc.model
    choices := [{ index := 0
                  delta := { content := ""
                             reasoningContent := none
                             toolCalls := [{ id := "chatcmpl-tool-" ++ gen t.toolCallIndex
                                             type := "function"
                                             index := t.toolCallIndex
                                             function := { name := parsed.name
                                                           arguments := argsToJSON parsed.args } }] }
                  logprobs := none, finishReason := none, stopReason := none
                  tokenIDs := none }]
    usage := none }

def createFinishChunk (t : StreamTransformer) (finishReason : Option String) :
    ChatCompletionChunk :=
  let lc := t.lastChunk.getD emptyChunk
  { id := lc.id, object := lc.object, created := lc.created, model := lc.model
    choices := [{ index := 0
                  delta := { content := "", reasoningContent := none, toolCalls := [] }
                  logprobs := none, finishReason := finishReason
                  stopReason := match lc.choices with
                                | c0 :: _ => c0.stopReason
                                | [] => none
                  tokenIDs := none }]
    usage := none }

def createEmptyContentChunks (t : StreamTransformer) : List SSELine :=
  [SSELine.chunk (createContentChunk t "" none)]

/-- `flushToolCall`: parse the buffer; on failure emit it as raw content, on
success emit the tool-call chunk, a blank separator and the finish chunk.  The
Go function always returns a nil error. -/
def flushToolCall (gen : Nat → String) (t : StreamTransformer) :
    StreamTransformer × List SSELine × Option String :=
  let buffered := t.buffer
  let t1 := { t with buffer := "", inToolCall := false }
  match parseToolCallXML buffered with
  | .error _ =>
    (t1, [SSELine.chunk (createContentChunk t1 buffered none)], none)
  | .ok parsed =>
    let tcChunk := createToolCallChunk gen t1 parsed
    let finChunk := createFinishChunk t1 (some "tool_calls")
    ({ t1 with toolCallIndex := t1.toolCallIndex + 1 },
     [SSELine.chunk tcChunk, SSELine.blank, SSELine.chunk finChunk], none)

/-- `TransformLine`: one step of the state machine.  Branch order follows the
Go code exactly; the Go function always returns a nil error. -/
def TransformLine (gen : Nat → String) (t : StreamTransformer) (line : SSELine) :
    StreamTransformer × List SSELine × Option String :=
  match line with
  | .blank => (t, [SSELine.blank], none)
  | .done => (t, [SSELine.done], none)
  | .noPrefix s => (t, [SSELine.noPrefix s], none)
  | .badJSON s => (t, [SSELine.badJSON s], none)
  | .chunk c =>
    let t := { t with lastChunk := some c }
    match c.choices with
    | [] => (t, [SSELine.chunk c], none)
    | c0 :: _ =>
      let content := c0.delta.content
      match firstIdxStr content "<tool_call>" with
      | some idx =>
        let t := { t with inToolCall := true, buffer := "" }
        if idx > 0 then
          let preChunk := createContentChunk t (strTake content idx) none
          ({ t with buffer := strDrop content idx },
           [SSELine.chunk preChunk], none)
        else
          let t := { t with buffer := content }
          (t, createEmptyContentChunks t, none)
      | none =>
        if t.inToolCall then
          let t := { t with buffer := t.buffer ++ content }
          if containsL t.buffer.data tcClose then flushToolCall gen t
          else (t, createEmptyContentChunks t, none)
        else if c0.finishReason = some "stop" ∧ t.buffer ≠ "" then
          let buffered := t.buffer
          let t := { t with buffer := "" }
          (t, [SSELine.chunk (createContentChunk t buffered c0.finishReason)], none)
        else (t, [SSELine.chunk c], none)

/-- The sequential line loop of `TransformStream` (output writing and flushing
are I/O and not modelled; the per-line results are concatenated in order). -/
def processLines (gen : Nat → String) (t : StreamTransformer) :
    List SSELine → StreamTransformer × List SSELine
  | [] => (t, [])
  | l :: ls =>
    let r := TransformLine gen t l
    let rest := processLines gen r.1 ls
    (rest.1, r.2.1 ++ rest.2)

/-! ## Definitions supporting the claim statements -/

/-- Envelope metadata shared by the events of one upstream response. -/
structure EnvMeta where
  id : String
  object : String
  created : Int
  model : String
deriving Repr, DecidableEq

/-- An ordinary content event (single choice, index 0, no tool calls). -/
def mkChunk (m : EnvMeta) (content : String) (fin : Option String) : ChatCompletionChunk :=
  { id := m.id, object := m.object, created := m.created, model := m.model
    choices := [{ index := 0
                  delta := { content := content, reasoningContent := none, toolCalls := [] }
                  logprobs := none, finishReason := fin, stopReason := none
                  tokenIDs := none }]
    usage := none }

/-- The cadence-placeholder event the transformer synthesizes while buffering. -/
def placeholderLine (m : EnvMeta) : SSELine := SSELine.chunk (mkChunk m "" none)

/-- The synthesized tool-call event for call counter `i`. -/
def toolCallLine (gen : Nat → String) (m : EnvMeta) (i : Nat) (nm args : String) : SSELine :=
  SSELine.chunk
    { id := m.id, object := m.object, created := m.created, model := m.model
      choices := [{ index := 0
                    delta := { content := ""
                               reasoningContent := none
                               toolCalls := [{ id := "chatcmpl-tool-" ++ gen i
                                               type := "function"
                                               index := i
                                               function := { name := nm, arguments := args } }] }
                    logprobs := none, finishReason := none, stopReason := none
                    tokenIDs := none }]
      usage := none }

/-- The synthesized finish event with the tool-call-completed reason. -/
def finishLine (m : EnvMeta) : SSELine :=
  SSELine.chunk (mkChunk m "" (some "tool_calls"))

/-- An output line is an empty-content placeholder event: a chunk with one
choice carrying empty content, no tool calls and no finish reason. -/
def isPlaceholder : SSELine → Bool
  | SSELine.chunk c =>
    match c.choices with
    | [c0] => c0.delta.content == "" && c0.delta.toolCalls.isEmpty && c0.finishReason == none
    | _ => false
  | _ => false

/-- An output line is a tool-call event (some choice carries tool calls). -/
def isToolCallLine : SSELine → Bool
  | SSELine.chunk c => c.choices.any (fun ch => !ch.delta.toolCalls.isEmpty)
  | _ => false

/-- An output line is a finish event with the tool-call-completed reason. -/
def isToolCallFinishLine : SSELine → Bool
  | SSELine.chunk c => c.choices.any (fun ch => ch.finishReason == some "tool_calls")
  | _ => false

/-- The invocation text of the chunk-boundary-invariance scenario. -/
def tcText : String := "<tool_call>f<arg_key>k</arg_key><arg_value>v</arg_value></tool_call>"

/-- The metadata of the repository's own stream scenario. -/
def testMeta : EnvMeta := ⟨"test-123", "chat.completion.chunk", 1234567890, "glm-4.7"⟩

/-- The content sequence of the repository's eleven-event scenario. -/
def elevenContents : List String :=
  ["配置", "：", "<tool_call>", "grep", "<arg_key>", "pattern", "</arg_key>",
   "<arg_value>", "test", "</arg_value>", "</tool_call>"]

/-- A fixed UUID-fragment generator used for concrete runs. -/
def genZero : Nat → String := fun _ => "000000000000"

/-- Rendering of one argument pair in the invocation micro-language. -/
def renderPair (k v : String) : String :=
  "<arg_key>" ++ k ++ "</arg_key>" ++ "<arg_value>" ++ v ++ "</arg_value>"

/-- Rendering of an argument list in the invocation micro-language. -/
def renderArgs : List (String × String) → String
  | [] => ""
  | p :: t => renderPair p.1 p.2 ++ renderArgs t

/-- Rendering of a whole invocation span. -/
def renderXML (name : String) (args : List (String × String)) : String :=
  "<tool_call>" ++ name ++ renderArgs args ++ "</tool_call>"

/-- The last value bound to key `k` in an ordered argument list. -/
def lastValue (k : String) (args : List ToolCallArg) : Option String :=
  args.foldl (fun acc a => if a.key == k then some a.value else acc) none

/-- The first choice content of a chunk (empty for a choice-less chunk). -/
def firstContent (c : ChatCompletionChunk) : String :=
  match c.choices with
  | [] => ""
  | c0 :: _ => c0.delta.content

/-- An output line carries the marker `pat` in some choice content. -/
def lineLeaks (pat : String) : SSELine → Bool
  | SSELine.chunk c => c.choices.any (fun ch => strContains ch.delta.content pat)
  | _ => false

/-- First value for key `k` in an association list. -/
def lookupL (k : String) (m : List (String × String)) : Option String :=
  (m.find? (fun p => p.1 == k)).map Prod.snd

/-- The buffer-emptiness invariant: outside buffering mode the buffer is empty. -/
def BufInv (t : StreamTransformer) : Prop := t.inToolCall = false → t.buffer = ""

/-- List-level rendering of an argument list (the character data of
`renderArgs`). -/
def renderArgsL : List (String × String) → List Char
  | [] => []
  | p :: t => akOpen ++ (p.1.data ++ (akClose ++ (avOpen ++ (p.2.data ++ (avClose ++ renderArgsL t)))))

/-- No nonempty proper suffix of `a` is a proper prefix of `p` (used to rule
out marker occurrences straddling an append boundary). -/
def noOverlap (a p : List Char) : Bool :=
  a.tails.all (fun s => s.isEmpty || !(s.isPrefixOf p) || decide (p.length ≤ s.length))

/-! ## Helper lemmas -/

lemma flushToolCall_resets (gen : Nat → String) (t : StreamTransformer) :
    (flushToolCall gen t).1.buffer = "" ∧ (flushToolCall gen t).1.inToolCall = false := by
  unfold flushToolCall
  cases h : parseToolCallXML t.buffer <;> simp [h]

lemma transformLine_bufInv (gen : Nat → String) (t : StreamTransformer) (line : SSELine)
    (h : BufInv t) : BufInv (TransformLine gen t line).1 := by
  unfold TransformLine
  split
  · exact h
  · exact h
  · exact h
  · exact h
  next c =>
    split
    · exact h
    next c0 cs hc =>
      dsimp only
      split
      next idx hidx =>
        split
        · intro hf
          simp at hf
        · intro hf
          simp at hf
      next hidx =>
        split
        next hin =>
          split
          next hcl =>
            intro _
            exact (flushToolCall_resets gen _).1
          next hcl =>
            intro hf
            simp at hf
            exact absurd hf (by simpa using hin)
        next hin =>
          split
          next hfin =>
            intro _
            rfl
          next hfin =>
            intro _
            exact h (by simpa using hin)

lemma processLines_bufInv (gen : Nat → String) (lines : List SSELine)
    (t : StreamTransformer) (h : BufInv t) : BufInv (processLines gen t lines).1 := by
  induction lines generalizing t with
  | nil => exact h
  | cons l ls ih => exact ih _ (transformLine_bufInv gen t l h)

/-! ## Claims -/

/-- C8 (confirmed): in every transformer state, `TransformLine` forwards
unchanged, as its single output line, a blank line, the terminal sentinel
`data: [DONE]`, any line not starting with the event prefix, and any prefixed
line whose JSON payload fails to decode into an envelope; the state is
untouched and no error is returned. -/
theorem C8_identity_lines (gen : Nat → String) (t : StreamTransformer) (s : String) :
    TransformLine gen t SSELine.blank = (t, [SSELine.blank], none) ∧
    TransformLine gen t SSELine.done = (t, [SSELine.done], none) ∧
    TransformLine gen t (SSELine.noPrefix s) = (t, [SSELine.noPrefix s], none) ∧
    TransformLine gen t (SSELine.badJSON s) = (t, [SSELine.badJSON s], none) :=
  ⟨rfl, rfl, rfl, rfl⟩

/-- C4 (confirmed): whenever the buffered invocation span fails to parse,
`flushToolCall` emits a single content envelope carrying the raw buffered text
verbatim, returns no error, and clears the buffer (and the buffering flag). -/
theorem C4_parse_failure_flush (gen : Nat → String) (t : StreamTransformer) (e : String)
    (h : parseToolCallXML t.buffer = .error e) :
    flushToolCall gen t =
      ({ t with buffer := "", inToolCall := false },
       [SSELine.chunk
          (createContentChunk { t with buffer := "", inToolCall := false } t.buffer none)],
       none) := by
  unfold flushToolCall
  dsimp only
  rw [h]

/-- C4 witness: the empty-body invocation span parses with an error and is
flushed as raw content. -/
theorem C4_parse_failure_flush_witness :
    parseToolCallXML
        ({ buffer := "<tool_call></tool_call>", inToolCall := true,
           lastChunk := some (mkChunk testMeta "x" none),
           toolCallIndex := 0 } : StreamTransformer).buffer = .error "empty tool call" ∧
    flushToolCall genZero
        { buffer := "<tool_call></tool_call>", inToolCall := true,
          lastChunk := some (mkChunk testMeta "x" none), toolCallIndex := 0 } =
      ({ buffer := "", inToolCall := false,
         lastChunk := some (mkChunk testMeta "x" none), toolCallIndex := 0 },
       [SSELine.chunk
          (createContentChunk
            { buffer := "", inToolCall := false,
              lastChunk := some (mkChunk testMeta "x" none), toolCallIndex := 0 }
            "<tool_call></tool_call>" none)],
       none) :=
  ⟨rfl,
   C4_parse_failure_flush genZero
     { buffer := "<tool_call></tool_call>", inToolCall := true,
       lastChunk := some (mkChunk testMeta "x" none), toolCallIndex := 0 }
     "empty tool call" rfl⟩

/-- C10 (confirmed): in every state reachable from the fresh transformer,
if the buffering flag is off then the internal buffer is empty. -/
theorem C10_buffer_empty_invariant (gen : Nat → String) (lines : List SSELine)
    (h : (processLines gen NewStreamTransformer lines).1.inToolCall = false) :
    (processLines gen NewStreamTransformer lines).1.buffer = "" :=
  processLines_bufInv gen lines NewStreamTransformer (fun _ => rfl) h

/-- C10 witness: the invariant applied to the empty stream. -/
theorem C10_buffer_empty_invariant_witness :
    (processLines genZero NewStreamTransformer []).1.buffer = "" :=
  C10_buffer_empty_invariant genZero [] rfl

/-- C1 counterexample: on the eleven-event scenario the transformer emits
eight empty-content placeholder events, not nine as claimed. -/
theorem C1_counterexample :
    ((processLines genZero NewStreamTransformer
        (elevenContents.map (fun s => SSELine.chunk (mkChunk testMeta s none)))).2.countP
        isPlaceholder = 8) ∧ (8 : Nat) ≠ 9 :=
  ⟨rfl, by decide⟩

/-- C1 (amended): the eleven-event scenario produces exactly the two content
events, eight empty-content placeholders, the tool-call event (name `grep`,
arguments `"pattern": "test"`, call index 0), a blank separator line, and the
finish event with the tool-call-completed reason. -/
theorem C1_eleven_event_scenario :
    (processLines genZero NewStreamTransformer
        (elevenContents.map (fun s => SSELine.chunk (mkChunk testMeta s none)))).2 =
      [SSELine.chunk (mkChunk testMeta "配置" none),
       SSELine.chunk (mkChunk testMeta "：" none)] ++
        List.replicate 8 (placeholderLine testMeta) ++
        [toolCallLine genZero testMeta 0 "grep" "\x7b\"pattern\":\"test\"\x7d",
         SSELine.blank, finishLine testMeta] := by
  rfl

/-- C2 counterexample: splitting the fixed invocation text into one single
content event, or into two events cutting through the open marker, yields no
tool-call event at all. -/
theorem C2_counterexample :
    ((processLines genZero NewStreamTransformer
        [SSELine.chunk (mkChunk testMeta tcText none)]).2.countP isToolCallLine = 0) ∧
    ((processLines genZero NewStreamTransformer
        [SSELine.chunk (mkChunk testMeta (strTake tcText 5) none),
         SSELine.chunk (mkChunk testMeta (strDrop tcText 5) none)]).2.countP
        isToolCallLine = 0) :=
  ⟨rfl, rfl⟩

/-- C3: evaluating the code at the failing input.  A finish event with reason
`stop` arriving while an opened-but-never-closed invocation is buffered is
swallowed into an empty placeholder: the raw buffered text is not attached to
the finish event, it stays in the internal buffer, which is discarded at end
of stream. -/
theorem C3_buffered_text_lost :
    (processLines genZero NewStreamTransformer
        [SSELine.chunk (mkChunk testMeta "<tool_call>doit" none),
         SSELine.chunk (mkChunk testMeta "" (some "stop"))]).2 =
        [placeholderLine testMeta, placeholderLine testMeta] ∧
    (processLines genZero NewStreamTransformer
        [SSELine.chunk (mkChunk testMeta "<tool_call>doit" none),
         SSELine.chunk (mkChunk testMeta "" (some "stop"))]).1.buffer = "<tool_call>doit" :=
  ⟨rfl, rfl⟩

/-- C5 counterexample: an ordinary event whose content carries a key marker
outside any invocation passes through verbatim, so an outgoing content field
does contain the literal key marker. -/
theorem C5_counterexample :
    (processLines genZero NewStreamTransformer
        [SSELine.chunk (mkChunk testMeta "see <arg_key> here" none)]).2 =
      [SSELine.chunk (mkChunk testMeta "see <arg_key> here" none)] ∧
    strContains "see <arg_key> here" "<arg_key>" = true :=
  ⟨rfl, rfl⟩

/-- C6 counterexample: a whitespace-only body between the outer markers is not
empty, yet `parseToolCallXML` returns an error for it. -/
theorem C6_counterexample :
    parseToolCallXML "<tool_call> </tool_call>" = .error "empty tool call" ∧
    trimSuffixGo (trimPrefixGo "<tool_call> </tool_call>" "<tool_call>") "</tool_call>" = " " ∧
    (" " : String) ≠ "" :=
  ⟨rfl, rfl, by simp⟩

lemma isPre_false_iff {a b : List Char} : a.isPrefixOf b = false ↔ ¬ a <+: b := by
  rw [← List.isPrefixOf_iff_prefix]
  cases a.isPrefixOf b <;> simp

lemma firstIdxL_some_zero {p s : List Char} (h : p <+: s) : firstIdxL p s = some 0 := by
  cases s <;> simp [firstIdxL, h]

lemma firstIdxL_isSome_iff {p s : List Char} : (firstIdxL p s).isSome = true ↔ p <:+: s := by
  induction s with
  | nil =>
    cases p with
    | nil => simp [firstIdxL, List.isPrefixOf]
    | cons a q => simp [firstIdxL, List.isPrefixOf]
  | cons c t ih =>
    cases hpre : p.isPrefixOf (c :: t) with
    | true =>
      have hp : p <+: (c :: t) := by simpa using hpre
      simp [firstIdxL, hpre, hp.isInfix]
    | false =>
      have hp : ¬ p <+: (c :: t) := isPre_false_iff.mp hpre
      simp [firstIdxL, hpre, ih, List.infix_cons_iff, hp]

lemma containsL_true_iff {s p : List Char} : containsL s p = true ↔ p <:+: s :=
  firstIdxL_isSome_iff

lemma containsL_false_iff {s p : List Char} : containsL s p = false ↔ ¬ p <:+: s := by
  rw [← containsL_true_iff]
  cases containsL s p <;> simp

lemma firstIdxL_none_iff {p s : List Char} : firstIdxL p s = none ↔ ¬ p <:+: s := by
  rw [← containsL_false_iff]
  unfold containsL
  cases firstIdxL p s <;> simp

lemma containsL_false_of_infix {s t p : List Char} (hst : s <:+: t)
    (ht : containsL t p = false) : containsL s p = false := by
  rw [containsL_false_iff] at ht ⊢
  exact fun h => ht (h.trans hst)

lemma not_isPre_append {p u v : List Char} (hu : ¬ p <:+: u) (hune : u ≠ [])
    (hv : v.head? = some '<') (hp1 : '<' ∉ p.drop 1) :
    ¬ p <+: u ++ v := by
  intro hpre
  rcases List.prefix_or_prefix_of_prefix hpre (List.prefix_append u v) with h | h
  · exact hu h.isInfix
  · rcases h with ⟨w, hw⟩
    by_cases hwnil : w = []
    · subst hwnil
      rw [List.append_nil] at hw
      exact hu (hw ▸ List.infix_refl u)
    · have hwv : w <+: v := by
        rcases hpre with ⟨z, hz⟩
        rw [← hw, List.append_assoc] at hz
        exact ⟨z, List.append_cancel_left hz⟩
      have hwhead : w.head? = some '<' := by
        rcases hwv with ⟨z, hz⟩
        rw [← hz, List.head?_append] at hv
        cases w with
        | nil => exact absurd rfl hwnil
        | cons a w2 => simpa using hv
      have hmem : '<' ∈ w := by
        cases w with
        | nil => exact absurd rfl hwnil
        | cons a w2 =>
          have : a = '<' := by simpa using hwhead
          simp [this]
      have hwd : w = p.drop u.length := by
        rw [← hw]
        exact (List.drop_left u w).symm
      cases u with
      | nil => exact absurd rfl hune
      | cons b u2 =>
        have : p.drop (b :: u2).length = (p.drop 1).drop u2.length := by
          rw [List.drop_drop]
          simp [Nat.add_comm]
        rw [hwd, this] at hmem
        exact hp1 (List.drop_subset _ _ hmem)

lemma firstIdxL_append {p u v : List Char} (hu : ¬ p <:+: u) (hpv : p <+: v)
    (hv : v.head? = some '<') (hp1 : '<' ∉ p.drop 1) :
    firstIdxL p (u ++ v) = some u.length := by
  induction u with
  | nil => simpa using firstIdxL_some_zero hpv
  | cons a u2 ih =>
    have hpre : ¬ p <+: (a :: u2) ++ v := not_isPre_append hu (by simp) hv hp1
    have hpre2 : p.isPrefixOf (a :: (u2 ++ v)) = false := by
      rw [← Bool.not_eq_true]
      simpa using hpre
    have hu2 : ¬ p <:+: u2 := fun h => hu (h.trans (List.infix_cons_iff.mpr (Or.inr (List.infix_refl u2))))
    show firstIdxL p (a :: (u2 ++ v)) = some (u2.length + 1)
    rw [firstIdxL, hpre2]
    simp [ih hu2]

lemma transformLine_open (gen : Nat → String) (t : StreamTransformer) (m : EnvMeta)
    (s : String) (fin : Option String)
    (h0 : firstIdxStr s "<tool_call>" = some 0) :
    TransformLine gen t (SSELine.chunk (mkChunk m s fin)) =
      ({ buffer := s, inToolCall := true, lastChunk := some (mkChunk m s fin),
         toolCallIndex := t.toolCallIndex },
       [placeholderLine m], none) := by
  unfold TransformLine
  dsimp only [mkChunk]
  rw [show (firstIdxStr s "<tool_call>") = some 0 from h0]
  rfl

lemma transformLine_buffering (gen : Nat → String) (t : StreamTransformer) (m : EnvMeta)
    (s : String)
    (hin : t.inToolCall = true)
    (hno : firstIdxStr s "<tool_call>" = none)
    (hnocl : containsL (t.buffer ++ s).data tcClose = false) :
    TransformLine gen t (SSELine.chunk (mkChunk m s none)) =
      ({ buffer := t.buffer ++ s, inToolCall := true,
         lastChunk := some (mkChunk m s none), toolCallIndex := t.toolCallIndex },
       [placeholderLine m], none) := by
  unfold TransformLine
  dsimp only [mkChunk]
  rw [show (firstIdxStr s "<tool_call>") = none from hno]
  rw [hin]
  dsimp only
  rw [hnocl]
  rfl

lemma transformLine_flush (gen : Nat → String) (t : StreamTransformer) (m : EnvMeta)
    (s : String)
    (hin : t.inToolCall = true)
    (hno : firstIdxStr s "<tool_call>" = none)
    (hcl : containsL (t.buffer ++ s).data tcClose = true) :
    TransformLine gen t (SSELine.chunk (mkChunk m s none)) =
      flushToolCall gen { buffer := t.buffer ++ s, inToolCall := true,
                          lastChunk := some (mkChunk m s none),
                          toolCallIndex := t.toolCallIndex } := by
  unfold TransformLine
  dsimp only [mkChunk]
  rw [show (firstIdxStr s "<tool_call>") = none from hno]
  rw [hin]
  dsimp only
  rw [hcl]
  rfl

lemma transformLine_pass (gen : Nat → String) (t : StreamTransformer) (m : EnvMeta)
    (s : String) (fin : Option String)
    (hin : t.inToolCall = false)
    (hno : firstIdxStr s "<tool_call>" = none)
    (hfin : ¬ (fin = some "stop" ∧ t.buffer ≠ "")) :
    TransformLine gen t (SSELine.chunk (mkChunk m s fin)) =
      ({ t with lastChunk := some (mkChunk m s fin) },
       [SSELine.chunk (mkChunk m s fin)], none) := by
  unfold TransformLine
  dsimp only [mkChunk]
  rw [show (firstIdxStr s "<tool_call>") = none from hno]
  rw [hin]
  rw [if_neg (show ¬ (false = true) by simp)]
  dsimp only
  rw [if_neg hfin]

lemma flushToolCall_ok (gen : Nat → String) (t : StreamTransformer)
    (parsed : ParsedToolCall) (m : EnvMeta) (prev : String) (fin : Option String)
    (hp : parseToolCallXML t.buffer = .ok parsed)
    (hl : t.lastChunk = some (mkChunk m prev fin)) :
    flushToolCall gen t =
      ({ buffer := "", inToolCall := false, lastChunk := t.lastChunk,
         toolCallIndex := t.toolCallIndex + 1 },
       [toolCallLine gen m t.toolCallIndex parsed.name (argsToJSON parsed.args),
        SSELine.blank, finishLine m], none) := by
  unfold flushToolCall
  dsimp only
  rw [hp, hl]
  rfl

lemma takeIsPre (n : Nat) (l : List Char) : l.take n <+: l :=
  ⟨l.drop n, List.take_append_drop n l⟩

lemma tcData_take_not_close {a : Nat} (ha : a ≤ 67) :
    containsL (tcText.data.take a) tcClose = false := by
  have h1 : tcText.data.take a = (tcText.data.take 67).take a := by
    rw [List.take_take, Nat.min_eq_left ha]
  rw [h1]
  exact containsL_false_of_infix (takeIsPre a _).isInfix (by rfl)

lemma tcData_drop_not_open {l : List Char} (h : l <:+: tcText.data.drop 11) :
    firstIdxL tcOpen l = none := by
  rw [firstIdxL_none_iff]
  intro hc
  have := containsL_false_of_infix h (p := tcOpen) (by rfl)
  rw [containsL_false_iff] at this
  exact this hc

lemma strMk_append (a b : List Char) : String.mk a ++ String.mk b = String.mk (a ++ b) := rfl

lemma parse_tcText : parseToolCallXML tcText = .ok ⟨"f", [⟨"k", "v"⟩]⟩ := rfl

lemma buffering_run (gen : Nat → String) (m : EnvMeta) (i : Nat) :
    ∀ (rest : List String) (a : Nat) (prev : String), 11 ≤ a → a < 68 →
    rest ≠ [] → (∀ s ∈ rest, s.data ≠ []) →
    (rest.map String.data).flatten = tcText.data.drop a →
    (processLines gen
        { buffer := String.mk (tcText.data.take a), inToolCall := true,
          lastChunk := some (mkChunk m prev none), toolCallIndex := i }
        (rest.map (fun s => SSELine.chunk (mkChunk m s none)))).2 =
      List.replicate (rest.length - 1) (placeholderLine m) ++
      [toolCallLine gen m i "f" "\x7b\"k\":\"v\"\x7d", SSELine.blank, finishLine m] := by
  intro rest
  induction rest with
  | nil => intro a prev _ _ hrest _ _; exact absurd rfl hrest
  | cons p rest2 ih =>
    intro a prev ha11 ha67 _ hne hjoin
    have hpd : p.data ≠ [] := hne p (by simp)
    have hsplit : p.data ++ (rest2.map String.data).flatten = tcText.data.drop a := by
      simpa using hjoin
    have hsfx : tcText.data.drop a <:+ tcText.data.drop 11 :=
      List.drop_suffix_drop_left _ ha11
    have hppre : p.data <+: tcText.data.drop a := ⟨_, hsplit⟩
    have hpno : firstIdxStr p "<tool_call>" = none :=
      tcData_drop_not_open (hppre.isInfix.trans hsfx.isInfix)
    have hlen : tcText.data.length = 68 := rfl
    have hdlen : (tcText.data.drop a).length = 68 - a := by
      rw [List.length_drop, hlen]
    -- the buffer after appending p
    have hptake : p.data = (tcText.data.drop a).take p.data.length :=
      List.prefix_iff_eq_take.mp hppre
    have hbuf : String.mk (tcText.data.take a) ++ p =
        String.mk (tcText.data.take (a + p.data.length)) := by
      show String.mk (tcText.data.take a ++ p.data) = _
      rw [List.take_add, ← hptake]
    cases rest2 with
    | nil =>
      -- last piece: the buffer becomes the whole text and flushes
      have hpfull : p.data = tcText.data.drop a := by simpa using hsplit
      have hbuf2 : String.mk (tcText.data.take a) ++ p = tcText := by
        show String.mk (tcText.data.take a ++ p.data) = _
        rw [hpfull, List.take_append_drop]
      have hcl : containsL ((String.mk (tcText.data.take a) : String) ++ p).data tcClose = true := by
        rw [hbuf2]
        rfl
      show (processLines gen _ [SSELine.chunk (mkChunk m p none)]).2 = _
      rw [processLines, processLines]
      dsimp only
      rw [transformLine_flush gen _ m p rfl hpno hcl]
      rw [hbuf2]
      rw [flushToolCall_ok gen
          { buffer := tcText, inToolCall := true,
            lastChunk := some (mkChunk m p none), toolCallIndex := i }
          ⟨"f", [⟨"k", "v"⟩]⟩ m p none parse_tcText rfl]
      rfl
    | cons q rest3 =>
      -- middle piece: buffering continues
      have hqd : q.data ≠ [] := hne q (by simp)
      have hlen2 : p.data.length + ((q :: rest3).map String.data).flatten.length = 68 - a := by
        have := congrArg List.length hsplit
        simpa [hdlen] using this
      have hflq : 1 ≤ ((q :: rest3).map String.data).flatten.length := by
        have : q.data.length ≠ 0 := fun h => hqd (List.length_eq_zero.mp h)
        simp only [List.map_cons, List.flatten_cons, List.length_append]
        omega
      have hanew : a + p.data.length ≤ 67 := by omega
      have hnocl : containsL ((String.mk (tcText.data.take a) : String) ++ p).data tcClose = false := by
        rw [hbuf]
        exact tcData_take_not_close hanew
      show (processLines gen _ (SSELine.chunk (mkChunk m p none) ::
          ((q :: rest3).map (fun s => SSELine.chunk (mkChunk m s none))))).2 = _
      rw [processLines]
      dsimp only
      rw [transformLine_buffering gen _ m p rfl hpno hnocl]
      dsimp only
      rw [hbuf]
      rw [ih (a + p.data.length) p (by omega) (by omega) (by simp)
          (fun s hs => hne s (by simp [hs])) ?join]
      case join =>
        have : ((q :: rest3).map String.data).flatten =
            (tcText.data.drop a).drop p.data.length := by
          rw [← hsplit, List.drop_left]
        rw [this, List.drop_drop]
      · -- placeholder counting
        have hlq : (q :: rest3).length - 1 + 1 = (q :: rest3).length := by simp
        rw [show (p :: q :: rest3).length - 1 = ((q :: rest3).length - 1) + 1 by simp]
        rw [List.replicate_succ]
        rfl

theorem C2_split_invariance (gen : Nat → String) (m : EnvMeta)
    (p1 : String) (rest : List String)
    (h11 : 11 ≤ p1.data.length) (hrest : rest ≠ [])
    (hne : ∀ s ∈ rest, s.data ≠ [])
    (hjoin : ((p1 :: rest).map String.data).flatten = tcText.data) :
    (processLines gen NewStreamTransformer
        ((p1 :: rest).map (fun s => SSELine.chunk (mkChunk m s none)))).2 =
      List.replicate ((p1 :: rest).length - 1) (placeholderLine m) ++
      [toolCallLine gen m 0 "f" "\x7b\"k\":\"v\"\x7d", SSELine.blank, finishLine m] := by
  have hsplit : p1.data ++ (rest.map String.data).flatten = tcText.data := by
    simpa using hjoin
  have hp1pre : p1.data <+: tcText.data := ⟨_, hsplit⟩
  have hp1take : p1.data = tcText.data.take p1.data.length :=
    List.prefix_iff_eq_take.mp hp1pre
  -- the open marker sits at position 0 of the first piece
  have hopen : firstIdxStr p1 "<tool_call>" = some 0 := by
    apply firstIdxL_some_zero
    have h1 : "<tool_call>".data = p1.data.take 11 := by
      rw [hp1take, List.take_take, Nat.min_eq_left h11]
      rfl
    rw [h1]
    exact takeIsPre 11 p1.data
  -- piece lengths
  have hlen : tcText.data.length = 68 := rfl
  have hflen : p1.data.length + (rest.map String.data).flatten.length = 68 := by
    have := congrArg List.length hsplit
    simpa [hlen] using this
  have hfpos : 1 ≤ (rest.map String.data).flatten.length := by
    cases rest with
    | nil => exact absurd rfl hrest
    | cons q rest2 =>
      have hq : q.data ≠ [] := hne q (by simp)
      have : q.data.length ≠ 0 := fun h => hq (List.length_eq_zero.mp h)
      simp only [List.map_cons, List.flatten_cons, List.length_append]
      omega
  have hle : p1.data.length < 68 := by omega
  show (processLines gen NewStreamTransformer (SSELine.chunk (mkChunk m p1 none) ::
      (rest.map (fun s => SSELine.chunk (mkChunk m s none))))).2 = _
  rw [processLines]
  dsimp only
  rw [transformLine_open gen NewStreamTransformer m p1 none hopen]
  dsimp only
  rw [show (p1 : String) = String.mk (tcText.data.take p1.data.length) from by
    conv_lhs => rw [show (p1 : String) = String.mk p1.data from rfl]
    rw [← hp1take]]
  have hj : (rest.map String.data).flatten = tcText.data.drop p1.data.length := by
    rw [← hsplit, List.drop_left]
  have hrun := buffering_run gen m 0 rest p1.data.length
      (String.mk (tcText.data.take p1.data.length)) h11 hle hrest hne hj
  rw [show NewStreamTransformer.toolCallIndex = 0 from rfl]
  rw [hrun]
  cases rest with
  | nil => exact absurd rfl hrest
  | cons q rest2 => simp [List.replicate_succ]

/-- C2 witness: the amended chunk-boundary invariance applied to the split of
the invocation text into two events after character 12. -/
theorem C2_split_invariance_witness :
    (processLines genZero NewStreamTransformer
        (([strTake tcText 12, strDrop tcText 12]).map
          (fun s => SSELine.chunk (mkChunk testMeta s none)))).2 =
      List.replicate 1 (placeholderLine testMeta) ++
      [toolCallLine genZero testMeta 0 "f" "\x7b\"k\":\"v\"\x7d", SSELine.blank,
       finishLine testMeta] :=
  C2_split_invariance genZero testMeta (strTake tcText 12) [strDrop tcText 12]
    (by decide) (by simp) (by intro s hs; simp at hs; subst hs; decide) rfl

lemma containsL_mono_append_left {a b p : List Char} (h : containsL a p = true) :
    containsL (a ++ b) p = true := by
  rw [containsL_true_iff] at h ⊢
  exact h.trans (List.prefix_append a b).isInfix

lemma containsL_take {s p : List Char} {n : Nat} (h : containsL (s.take n) p = true) :
    containsL s p = true := by
  rw [containsL_true_iff] at h ⊢
  exact h.trans (takeIsPre n s).isInfix

lemma containsL_mono_append_right {a b p : List Char} (h : containsL b p = true) :
    containsL (a ++ b) p = true := by
  rw [containsL_true_iff] at h ⊢
  exact h.trans (List.suffix_append a b).isInfix

/-- C5 (amended): the transformation never introduces a marker.  Any output
line of a `TransformLine` step that carries the open or key marker in a
content field implies the marker was already present in the incoming event
content or in the previously buffered text; in particular the synthesized
placeholder, tool-call and finish envelopes all carry empty content. -/
theorem C5_no_marker_introduced (gen : Nat → String) (t : StreamTransformer)
    (c : ChatCompletionChunk) (pat : String)
    (hpat : pat = "<tool_call>" ∨ pat = "<arg_key>") :
    ∀ l ∈ (TransformLine gen t (SSELine.chunk c)).2.1,
      lineLeaks pat l = true →
      lineLeaks pat (SSELine.chunk c) = true ∨
      strContains (t.buffer ++ firstContent c) pat = true := by
  have hempty : strContains "" pat = false := by
    rcases hpat with h | h <;> subst h <;> rfl
  simp only [TransformLine]
  split
  next hnil =>
    intro l hl hleak
    simp [createEmptyContentChunks] at hl
    subst hl
    exact Or.inl hleak
  next c0 cs hchoices =>
    have hfc : firstContent c = c0.delta.content := by rw [firstContent, hchoices]
    split
    next idx hidx =>
      split
      next hgt =>
        -- prefix text before the marker is emitted as content
        intro l hl hleak
        simp [createEmptyContentChunks] at hl
        subst hl
        left
        simp only [lineLeaks, createContentChunk, List.any_cons, List.any_nil,
          Bool.or_false] at hleak
        have h3 : strContains c0.delta.content pat = true :=
          containsL_take (n := idx) hleak
        simp [lineLeaks, hchoices, h3]
      next hgt =>
        -- placeholder while starting to buffer
        intro l hl hleak
        simp [createEmptyContentChunks] at hl
        subst hl
        simp only [lineLeaks, createEmptyContentChunks, createContentChunk,
          List.any_cons, List.any_nil, Bool.or_false] at hleak
        rw [hempty] at hleak
        exact absurd hleak (by simp)
    next hidx =>
      split
      next hin =>
        split
        next hcl =>
          -- flush on close marker
          unfold flushToolCall
          dsimp only
          split
          next herr =>
            intro l hl hleak
            simp [createEmptyContentChunks] at hl
            subst hl
            right
            simp only [lineLeaks, createContentChunk, List.any_cons, List.any_nil,
              Bool.or_false] at hleak
            rw [hfc]
            exact hleak
          next parsed hok =>
            intro l hl hleak
            simp [createEmptyContentChunks] at hl
            rcases hl with hl | hl | hl <;> subst hl
            · simp only [lineLeaks, createToolCallChunk, List.any_cons, List.any_nil,
                Bool.or_false] at hleak
              rw [hempty] at hleak
              exact absurd hleak (by simp)
            · simp [lineLeaks] at hleak
            · simp only [lineLeaks, createFinishChunk, List.any_cons, List.any_nil,
                Bool.or_false] at hleak
              rw [hempty] at hleak
              exact absurd hleak (by simp)
        next hcl =>
          -- placeholder while buffering
          intro l hl hleak
          simp [createEmptyContentChunks] at hl
          subst hl
          simp only [lineLeaks, createEmptyContentChunks, createContentChunk,
            List.any_cons, List.any_nil, Bool.or_false] at hleak
          rw [hempty] at hleak
          exact absurd hleak (by simp)
      next hin =>
        split
        next hstop =>
          -- the (dead) stop-flush branch emits the raw buffer
          intro l hl hleak
          simp [createEmptyContentChunks] at hl
          subst hl
          right
          simp only [lineLeaks, createContentChunk, List.any_cons, List.any_nil,
            Bool.or_false] at hleak
          exact containsL_mono_append_left (b := (firstContent c).data) hleak
        next hstop =>
          -- passthrough
          intro l hl hleak
          simp [createEmptyContentChunks] at hl
          subst hl
          exact Or.inl hleak

/-- C5 witness: the no-marker-introduction property applied to a passthrough
event whose content already carries the key marker. -/
theorem C5_no_marker_introduced_witness :
    lineLeaks "<arg_key>" (SSELine.chunk (mkChunk testMeta "see <arg_key> here" none)) = true ∨
    strContains (NewStreamTransformer.buffer ++
      firstContent (mkChunk testMeta "see <arg_key> here" none)) "<arg_key>" = true :=
  C5_no_marker_introduced genZero NewStreamTransformer
    (mkChunk testMeta "see <arg_key> here" none) "<arg_key>" (Or.inr rfl)
    (SSELine.chunk (mkChunk testMeta "see <arg_key> here" none))
    (List.mem_singleton.mpr rfl) rfl

/-! ### Trim lemmas -/

lemma dropWhile_dropWhile (p : Char → Bool) (l : List Char) :
    (l.dropWhile p).dropWhile p = l.dropWhile p := by
  induction l with
  | nil => rfl
  | cons a t ih =>
    rw [List.dropWhile_cons]
    split
    · exact ih
    next h => rw [List.dropWhile_cons, if_neg h]

lemma trimLeftL_idem (l : List Char) : trimLeftL (trimLeftL l) = trimLeftL l :=
  dropWhile_dropWhile goSpace l

lemma trimRightL_eq_self {l : List Char} {x : Char}
    (hx : l.getLast? = some x) (hsp : goSpace x = false) : trimRightL l = l := by
  unfold trimRightL
  have hrev : l.reverse.head? = some x := by rw [List.head?_reverse, hx]
  cases hr : l.reverse with
  | nil => rw [hr] at hrev; simp at hrev
  | cons a t =>
    rw [hr] at hrev
    simp at hrev
    subst hrev
    rw [List.dropWhile_cons, if_neg (by simp [hsp])]
    rw [← hr, List.reverse_reverse]

lemma trimRightL_idem (l : List Char) : trimRightL (trimRightL l) = trimRightL l := by
  unfold trimRightL
  rw [List.reverse_reverse, dropWhile_dropWhile]

lemma trimLeftL_head_not_space {l : List Char} {x : Char} (hx : (trimLeftL l).head? = some x) :
    goSpace x = false := by
  unfold trimLeftL at hx
  induction l with
  | nil => simp at hx
  | cons a t ih =>
    rw [List.dropWhile_cons] at hx
    split at hx
    · exact ih hx
    next h =>
      simp at hx
      subst hx
      simpa using h

lemma trimRightL_trimLeftL_comm (l : List Char) :
    trimLeftL (trimRightL (trimLeftL l)) = trimRightL (trimLeftL l) := by
  cases hh : (trimRightL (trimLeftL l)).head? with
  | none =>
    have : trimRightL (trimLeftL l) = [] := by
      cases htl : trimRightL (trimLeftL l)
      · rfl
      · rw [htl] at hh; simp at hh
    rw [this]
    rfl
  | some x =>
    -- the head of the right-trimmed left-trimmed list is the head of the
    -- left-trimmed list, which is not a space
    have hpre : trimRightL (trimLeftL l) <+: trimLeftL l := by
      unfold trimRightL
      have : (trimLeftL l).reverse.dropWhile goSpace <:+ (trimLeftL l).reverse :=
        List.dropWhile_suffix goSpace
      rcases this with ⟨w, hw⟩
      refine ⟨w.reverse, ?_⟩
      rw [← List.reverse_append, hw, List.reverse_reverse]
    have hxl : (trimLeftL l).head? = some x := by
      rcases hpre with ⟨w, hw⟩
      rw [← hw, List.head?_append, hh]
      rfl
    have hsp : goSpace x = false := trimLeftL_head_not_space hxl
    cases htl : trimRightL (trimLeftL l) with
    | nil => rfl
    | cons a t =>
      rw [htl] at hh
      simp at hh
      subst hh
      unfold trimLeftL
      rw [List.dropWhile_cons, if_neg (by simp [hsp])]

lemma trimSpaceL_idem (l : List Char) : trimSpaceL (trimSpaceL l) = trimSpaceL l := by
  unfold trimSpaceL
  rw [trimRightL_trimLeftL_comm, trimRightL_idem]

/-! ### Scanner lemmas for rendered argument sections -/

lemma renderArgs_data (args : List (String × String)) :
    (renderArgs args).data = renderArgsL args := by
  induction args with
  | nil => rfl
  | cons p t ih =>
    show (renderPair p.1 p.2 ++ renderArgs t).data = _
    rw [String.data_append, ih]
    show ("<arg_key>" ++ p.1 ++ "</arg_key>" ++ "<arg_value>" ++ p.2 ++ "</arg_value>").data ++ _ = _
    simp only [String.data_append, List.append_assoc, renderArgsL]
    rfl

lemma splitAtFirst_render {v r : List Char} (hv : ¬ avClose <:+: v) :
    splitAtFirst avClose (v ++ (avClose ++ r)) = some (v, r) := by
  induction v with
  | nil =>
    show splitAtFirst avClose (avClose ++ r) = some ([], r)
    rw [show avClose ++ r = '<' :: ("/arg_value>".data ++ r) from rfl, splitAtFirst]
    rw [if_pos (by
      rw [show ('<' :: ("/arg_value>".data ++ r)) = avClose ++ r from rfl]
      exact List.isPrefixOf_iff_prefix.mpr (List.prefix_append avClose r))]
    rw [show ('<' :: ("/arg_value>".data ++ r)) = avClose ++ r from rfl]
    rw [List.drop_left' (by rfl)]
  | cons c v2 ih =>
    have hnp : ¬ avClose <+: (c :: v2) ++ (avClose ++ r) :=
      not_isPre_append hv (by simp) rfl (by decide)
    show splitAtFirst avClose (c :: (v2 ++ (avClose ++ r))) = _
    rw [splitAtFirst]
    rw [if_neg (by
      rw [List.isPrefixOf_iff_prefix]
      simpa using hnp)]
    have hv2 : ¬ avClose <:+: v2 :=
      fun h => hv (h.trans (List.infix_cons_iff.mpr (Or.inr (List.infix_refl v2))))
    rw [ih hv2]
    rfl

lemma matchValuePart_render {v r : List Char} (hv : ¬ avClose <:+: v) :
    matchValuePart (avOpen ++ (v ++ (avClose ++ r))) = some (v, r) := by
  have hd : (avOpen ++ (v ++ (avClose ++ r))).dropWhile rxSpace =
      avOpen ++ (v ++ (avClose ++ r)) := by
    rw [show avOpen ++ (v ++ (avClose ++ r)) =
        '<' :: ("arg_value>".data ++ (v ++ (avClose ++ r))) from rfl]
    rw [List.dropWhile_cons, if_neg (by decide)]
  simp only [matchValuePart]
  rw [hd]
  rw [if_pos (List.isPrefixOf_iff_prefix.mpr (List.prefix_append avOpen (v ++ (avClose ++ r))))]
  rw [List.drop_left' (by rfl)]
  exact splitAtFirst_render hv

lemma matchAfterKeyOpen_render {k v r : List Char}
    (hk : ¬ akClose <:+: k) (hv : ¬ avClose <:+: v) :
    matchAfterKeyOpen (k ++ (akClose ++ (avOpen ++ (v ++ (avClose ++ r))))) =
      some (k, v, r) := by
  induction k with
  | nil =>
    show matchAfterKeyOpen (akClose ++ (avOpen ++ (v ++ (avClose ++ r)))) = some ([], v, r)
    rw [show akClose ++ (avOpen ++ (v ++ (avClose ++ r))) =
        '<' :: ("/arg_key>".data ++ (avOpen ++ (v ++ (avClose ++ r)))) from rfl]
    rw [matchAfterKeyOpen]
    rw [show ('<' :: ("/arg_key>".data ++ (avOpen ++ (v ++ (avClose ++ r))))) =
        akClose ++ (avOpen ++ (v ++ (avClose ++ r))) from rfl]
    rw [if_pos (List.isPrefixOf_iff_prefix.mpr (List.prefix_append akClose _))]
    rw [List.drop_left' (by rfl)]
    rw [matchValuePart_render hv]
  | cons c k2 ih =>
    have hnp : ¬ akClose <+: (c :: k2) ++ (akClose ++ (avOpen ++ (v ++ (avClose ++ r)))) :=
      not_isPre_append hk (by simp) rfl (by decide)
    show matchAfterKeyOpen (c :: (k2 ++ (akClose ++ (avOpen ++ (v ++ (avClose ++ r)))))) = _
    rw [matchAfterKeyOpen]
    rw [if_neg (by
      rw [List.isPrefixOf_iff_prefix]
      simpa using hnp)]
    have hk2 : ¬ akClose <:+: k2 :=
      fun h => hk (h.trans (List.infix_cons_iff.mpr (Or.inr (List.infix_refl k2))))
    rw [ih hk2]
    rfl

lemma renderArgsL_length_pos {p : String × String} {t : List (String × String)} :
    1 ≤ (renderArgsL (p :: t)).length := by
  show 1 ≤ (akOpen ++ _).length
  rw [List.length_append]
  have h9 : akOpen.length = 9 := rfl
  omega

lemma findArgPairsAux_cons (fuel : Nat) (c : Char) (t : List Char) :
    findArgPairsAux (fuel + 1) (c :: t) =
      match
        if akOpen.isPrefixOf (c :: t) then matchAfterKeyOpen ((c :: t).drop akOpen.length)
        else none
      with
      | some (g1, v, r) => (g1, v) :: findArgPairsAux fuel r
      | none => findArgPairsAux fuel t := rfl

lemma findArgPairsAux_render :
    ∀ (args : List (String × String)) (fuel : Nat),
    (renderArgsL args).length ≤ fuel →
    (∀ p ∈ args, ¬ akClose <:+: p.1.data) →
    (∀ p ∈ args, ¬ avClose <:+: p.2.data) →
    findArgPairsAux fuel (renderArgsL args) = args.map (fun p => (p.1.data, p.2.data)) := by
  intro args
  induction args with
  | nil => intro fuel _ _ _; cases fuel <;> rfl
  | cons p t ih =>
    intro fuel hfuel hk hv
    have hpos : 1 ≤ (renderArgsL (p :: t)).length := renderArgsL_length_pos
    cases fuel with
    | zero => omega
    | succ f =>
      have hsplit : renderArgsL (p :: t) =
          '<' :: ("arg_key>".data ++
            (p.1.data ++ (akClose ++ (avOpen ++ (p.2.data ++ (avClose ++ renderArgsL t)))))) := rfl
      rw [hsplit, findArgPairsAux_cons]
      rw [show ('<' :: ("arg_key>".data ++
            (p.1.data ++ (akClose ++ (avOpen ++ (p.2.data ++ (avClose ++ renderArgsL t))))))) =
          akOpen ++ (p.1.data ++ (akClose ++ (avOpen ++ (p.2.data ++ (avClose ++ renderArgsL t)))))
          from rfl]
      rw [if_pos (List.isPrefixOf_iff_prefix.mpr (List.prefix_append akOpen _))]
      rw [List.drop_left' (by rfl)]
      rw [matchAfterKeyOpen_render (hk p (by simp)) (hv p (by simp))]
      show (p.1.data, p.2.data) :: findArgPairsAux f (renderArgsL t) =
        List.map (fun q => (q.1.data, q.2.data)) (p :: t)
      have hlen : (renderArgsL t).length + 42 ≤ (renderArgsL (p :: t)).length := by
        show _ + 42 ≤ (akOpen ++ (p.1.data ++ (akClose ++ (avOpen ++ (p.2.data ++ (avClose ++ renderArgsL t)))))).length
        simp only [List.length_append]
        have h1 : akOpen.length = 9 := rfl
        have h2 : akClose.length = 10 := rfl
        have h3 : avOpen.length = 11 := rfl
        have h4 : avClose.length = 12 := rfl
        omega
      rw [ih f (by omega) (fun q hq => hk q (by simp [hq])) (fun q hq => hv q (by simp [hq]))]
      rfl

lemma findArgPairs_render (args : List (String × String))
    (hk : ∀ p ∈ args, ¬ akClose <:+: p.1.data)
    (hv : ∀ p ∈ args, ¬ avClose <:+: p.2.data) :
    findArgPairs (renderArgsL args) = args.map (fun p => (p.1.data, p.2.data)) :=
  findArgPairsAux_render args (renderArgsL args).length (Nat.le_refl _) hk hv

lemma trimRightL_isPre (l : List Char) : trimRightL l <+: l := by
  unfold trimRightL
  have hs : l.reverse.dropWhile goSpace <:+ l.reverse := List.dropWhile_suffix goSpace
  rcases hs with ⟨w, hw⟩
  refine ⟨w.reverse, ?_⟩
  rw [← List.reverse_append, hw, List.reverse_reverse]

lemma trimSpaceL_sub (l : List Char) : trimSpaceL l <:+: l :=
  ((trimRightL_isPre (trimLeftL l)).isInfix).trans (List.dropWhile_suffix goSpace).isInfix

lemma getLast?_append_right {a b : List Char} (h : b.getLast? = some '>') :
    (a ++ b).getLast? = some '>' := by
  rw [List.getLast?_append, h]
  rfl

lemma renderArgsL_getLast {q : String × String} {t : List (String × String)} :
    (renderArgsL (q :: t)).getLast? = some '>' := by
  induction t generalizing q with
  | nil =>
    show (akOpen ++ _).getLast? = some '>'
    apply getLast?_append_right
    apply getLast?_append_right
    apply getLast?_append_right
    apply getLast?_append_right
    apply getLast?_append_right
    rw [show renderArgsL [] = [] from rfl, List.append_nil]
    rfl
  | cons q2 t2 ih =>
    show (akOpen ++ _).getLast? = some '>'
    apply getLast?_append_right
    apply getLast?_append_right
    apply getLast?_append_right
    apply getLast?_append_right
    apply getLast?_append_right
    exact getLast?_append_right (ih (q := q2))

lemma renderArgsL_cons_head {q : String × String} {t : List (String × String)} :
    (renderArgsL (q :: t)).head? = some '<' := rfl

lemma trimLeftL_append_marker {a rd : List Char} (hrd : rd.head? = some '<') :
    trimLeftL (a ++ rd) = trimLeftL a ++ rd := by
  unfold trimLeftL
  rw [List.dropWhile_append]
  have hrd2 : rd.dropWhile goSpace = rd := by
    cases rd with
    | nil => rfl
    | cons c t =>
      simp at hrd
      subst hrd
      rw [List.dropWhile_cons, if_neg (by decide)]
  split
  next h =>
    rw [hrd2]
    have ha : List.dropWhile goSpace a = [] := by
      cases hd : List.dropWhile goSpace a with
      | nil => rfl
      | cons x xs => rw [hd] at h; simp at h
    rw [ha]
    rfl
  next h => rfl

lemma renderXML_data (name : String) (args : List (String × String)) :
    (renderXML name args).data =
      "<tool_call>".data ++ (name.data ++ (renderArgsL args ++ "</tool_call>".data)) := by
  show ("<tool_call>" ++ name ++ renderArgs args ++ "</tool_call>").data = _
  simp only [String.data_append, renderArgs_data, List.append_assoc]

lemma trimPrefixGo_render (name : String) (args : List (String × String)) :
    trimPrefixGo (renderXML name args) "<tool_call>" =
      String.mk (name.data ++ (renderArgsL args ++ "</tool_call>".data)) := by
  unfold trimPrefixGo
  rw [if_pos (by
    rw [renderXML_data]
    exact List.isPrefixOf_iff_prefix.mpr (List.prefix_append _ _))]
  congr 1
  rw [renderXML_data]
  exact List.drop_left' rfl

lemma trimSuffixGo_render (name : String) (args : List (String × String)) :
    trimSuffixGo (String.mk (name.data ++ (renderArgsL args ++ "</tool_call>".data)))
        "</tool_call>" =
      String.mk (name.data ++ renderArgsL args) := by
  unfold trimSuffixGo
  have hassoc : name.data ++ (renderArgsL args ++ "</tool_call>".data) =
      (name.data ++ renderArgsL args) ++ "</tool_call>".data := by
    rw [List.append_assoc]
  have h12 : ("</tool_call>".data).length = 12 := rfl
  rw [if_pos (by
    show ("</tool_call>".data).isSuffixOf
        (name.data ++ (renderArgsL args ++ "</tool_call>".data)) = true
    rw [hassoc]
    exact List.isSuffixOf_iff_suffix.mpr (List.suffix_append _ _))]
  congr 1
  show (name.data ++ (renderArgsL args ++ "</tool_call>".data)).take
      ((name.data ++ (renderArgsL args ++ "</tool_call>".data)).length -
        ("</tool_call>".data).length) = _
  rw [hassoc, List.length_append, h12]
  rw [show (name.data ++ renderArgsL args).length + 12 - 12 =
      (name.data ++ renderArgsL args).length by omega]
  exact List.take_left _ _

lemma parse_render (name : String) (args : List (String × String))
    (hn : ¬ akOpen <:+: name.data)
    (hk : ∀ p ∈ args, ¬ akClose <:+: p.1.data)
    (hv : ∀ p ∈ args, ¬ avClose <:+: p.2.data)
    (hnz : trimSpace name ≠ "" ∨ args ≠ []) :
    parseToolCallXML (renderXML name args) =
      .ok ⟨trimSpace name, args.map (fun p => (⟨trimSpace p.1, p.2⟩ : ToolCallArg))⟩ := by
  have hpre := trimPrefixGo_render name args
  have hsuf := trimSuffixGo_render name args
  simp only [parseToolCallXML, hpre, hsuf]
  cases args with
  | nil =>
    have e1 : String.mk (name.data ++ renderArgsL []) = name := by
      rw [show renderArgsL [] = [] from rfl, List.append_nil]
    rw [e1]
    have hne : trimSpace name ≠ "" := hnz.resolve_right (by simp)
    rw [if_neg hne]
    have hno : firstIdxStr (trimSpace name) "<arg_key>" = none := by
      show firstIdxL ("<arg_key>".data) (trimSpace name).data = none
      rw [firstIdxL_none_iff]
      intro hcon
      exact hn (hcon.trans (trimSpaceL_sub name.data))
    rw [hno]
    have hidem : trimSpace (trimSpace name) = trimSpace name := by
      show String.mk (trimSpaceL (trimSpaceL name.data)) = _
      rw [trimSpaceL_idem]
      rfl
    dsimp only
    rw [hidem]
    rfl
  | cons q t =>
    have htl : trimLeftL (name.data ++ renderArgsL (q :: t)) =
        trimLeftL name.data ++ renderArgsL (q :: t) :=
      trimLeftL_append_marker renderArgsL_cons_head
    have htrim : trimSpace (String.mk (name.data ++ renderArgsL (q :: t))) =
        String.mk (trimLeftL name.data ++ renderArgsL (q :: t)) := by
      show String.mk (trimSpaceL (name.data ++ renderArgsL (q :: t))) = _
      unfold trimSpaceL
      rw [htl]
      rw [trimRightL_eq_self (getLast?_append_right renderArgsL_getLast) rfl]
    rw [htrim]
    have hne2 : String.mk (trimLeftL name.data ++ renderArgsL (q :: t)) ≠ "" := by
      intro hEq
      have hdat : trimLeftL name.data ++ renderArgsL (q :: t) = [] :=
        congrArg String.data hEq
      have hlen := renderArgsL_length_pos (p := q) (t := t)
      have hnil : renderArgsL (q :: t) = [] := (List.append_eq_nil.mp hdat).2
      rw [hnil] at hlen
      simp at hlen
    rw [if_neg hne2]
    have htln_inf : trimLeftL name.data <:+: name.data :=
      (List.dropWhile_suffix goSpace).isInfix
    have hfi : firstIdxStr (String.mk (trimLeftL name.data ++ renderArgsL (q :: t)))
        "<arg_key>" = some (trimLeftL name.data).length := by
      show firstIdxL ("<arg_key>".data) (trimLeftL name.data ++ renderArgsL (q :: t)) = _
      apply firstIdxL_append
      · exact fun h => hn (h.trans htln_inf)
      · exact (List.prefix_append akOpen _ : akOpen <+: renderArgsL (q :: t))
      · exact renderArgsL_cons_head
      · decide
    rw [hfi]
    dsimp only
    have hname : trimSpace (strTake (String.mk (trimLeftL name.data ++ renderArgsL (q :: t)))
        (trimLeftL name.data).length) = trimSpace name := by
      show String.mk (trimSpaceL ((trimLeftL name.data ++ renderArgsL (q :: t)).take
        (trimLeftL name.data).length)) = _
      rw [List.take_left]
      show String.mk (trimRightL (trimLeftL (trimLeftL name.data))) =
        String.mk (trimRightL (trimLeftL name.data))
      rw [trimLeftL_idem]
    rw [hname]
    have hdrop : (strDrop (String.mk (trimLeftL name.data ++ renderArgsL (q :: t)))
        (trimLeftL name.data).length).data = renderArgsL (q :: t) := by
      show (trimLeftL name.data ++ renderArgsL (q :: t)).drop (trimLeftL name.data).length = _
      exact List.drop_left _ _
    rw [hdrop]
    rw [findArgPairs_render (q :: t) hk hv]
    simp only [List.map_map]
    rfl

/-- C6 (amended): `parseToolCallXML` returns an error exactly when the body
between the outer markers trims to the empty string (empty or whitespace-only);
on a rendered invocation span whose key and value texts do not contain their
own closing markers it returns the name before the first key marker trimmed of
whitespace (the whole trimmed body when there is no key marker), each key
trimmed of whitespace, and each value exactly as written. -/
theorem C6_parse_characterization :
    (∀ xml : String,
      (∃ e, parseToolCallXML xml = .error e) ↔
        trimSpace (trimSuffixGo (trimPrefixGo xml "<tool_call>") "</tool_call>") = "") ∧
    (∀ (name : String) (args : List (String × String)),
      strContains name "<arg_key>" = false →
      (∀ p ∈ args, strContains p.1 "</arg_key>" = false) →
      (∀ p ∈ args, strContains p.2 "</arg_value>" = false) →
      (trimSpace name ≠ "" ∨ args ≠ []) →
      parseToolCallXML (renderXML name args) =
        .ok ⟨trimSpace name, args.map (fun p => (⟨trimSpace p.1, p.2⟩ : ToolCallArg))⟩) := by
  constructor
  · intro xml
    by_cases h : trimSpace (trimSuffixGo (trimPrefixGo xml "<tool_call>") "</tool_call>") = ""
    · simp [parseToolCallXML, h]
    · simp [parseToolCallXML, h]
  · intro name args h1 h2 h3 h4
    exact parse_render name args (containsL_false_iff.mp h1)
      (fun p hp => containsL_false_iff.mp (h2 p hp))
      (fun p hp => containsL_false_iff.mp (h3 p hp)) h4

/-- C6 witness: the characterization applied to the invocation
`grep(pattern: test)` in the micro-language. -/
theorem C6_parse_characterization_witness :
    parseToolCallXML (renderXML "grep" [("pattern", "test")]) =
      .ok ⟨trimSpace "grep",
           [("pattern", "test")].map (fun p => (⟨trimSpace p.1, p.2⟩ : ToolCallArg))⟩ :=
  C6_parse_characterization.2 "grep" [("pattern", "test")] rfl
    (by intro p hp; simp at hp; subst hp; rfl)
    (by intro p hp; simp at hp; subst hp; rfl)
    (Or.inl (by decide))

lemma infix_append_cases {p a b : List Char} (h : p <:+: a ++ b) :
    p <:+: a ∨ p <:+: b ∨
      ∃ s t, s ++ t = p ∧ s ≠ [] ∧ t ≠ [] ∧ s <:+ a ∧ t <+: b := by
  induction a with
  | nil =>
    right; left
    simpa using h
  | cons c a2 ih =>
    rcases List.infix_cons_iff.mp h with hpre | hinf
    · rcases List.prefix_or_prefix_of_prefix hpre (List.prefix_append (c :: a2) b) with
        hp | hp
      · exact Or.inl hp.isInfix
      · rcases hp with ⟨t, ht⟩
        cases t with
        | nil =>
          rw [List.append_nil] at ht
          exact Or.inl (ht ▸ List.infix_refl p)
        | cons x ts =>
          right; right
          refine ⟨c :: a2, x :: ts, ht, by simp, by simp, List.suffix_refl _, ?_⟩
          rcases hpre with ⟨w, hw⟩
          rw [← ht, List.append_assoc] at hw
          exact ⟨w, List.append_cancel_left hw⟩
    · rcases ih hinf with h1 | h2 | ⟨s, t, hst, hs, ht, hsa, htb⟩
      · exact Or.inl (h1.trans (List.infix_cons_iff.mpr (Or.inr (List.infix_refl a2))))
      · exact Or.inr (Or.inl h2)
      · exact Or.inr (Or.inr ⟨s, t, hst, hs, ht, hsa.trans (List.suffix_cons c a2), htb⟩)

lemma containsL_append_false {p a b : List Char}
    (ha : containsL a p = false) (hb : containsL b p = false)
    (hov : noOverlap a p = true) :
    containsL (a ++ b) p = false := by
  rw [containsL_false_iff] at ha hb ⊢
  intro h
  rcases infix_append_cases h with h1 | h2 | ⟨s, t, hst, hs, ht, hsa, htb⟩
  · exact ha h1
  · exact hb h2
  · have hmem : s ∈ a.tails := (List.mem_tails s a).mpr hsa
    have := List.all_eq_true.mp hov s hmem
    rcases Bool.or_eq_true_iff.mp this with h3 | h4
    · rcases Bool.or_eq_true_iff.mp h3 with h5 | h6
      · exact hs (by simpa using h5)
      · have hsp : s <+: p := ⟨t, hst⟩
        rw [Bool.not_eq_true'] at h6
        exact absurd (List.isPrefixOf_iff_prefix.mpr hsp) (by simp [h6])
    · have hlt : s.length < p.length := by
        have := congrArg List.length hst
        rw [List.length_append] at this
        have htpos : 0 < t.length := List.length_pos.mpr ht
        omega
      have := of_decide_eq_true h4
      omega

lemma strExt {a b : String} (h : a.data = b.data) : a = b := by
  cases a
  cases b
  cases h
  rfl

lemma parse_simple_invocation (f : String)
    (hk : strContains f "<arg_key>" = false) (hne : trimSpace f ≠ "") :
    parseToolCallXML (("<tool_call>" ++ f) ++ "</tool_call>") = .ok ⟨trimSpace f, []⟩ := by
  have heq : ("<tool_call>" ++ f) ++ "</tool_call>" = renderXML f [] := by
    apply strExt
    rw [renderXML_data]
    show ("<tool_call>".data ++ f.data) ++ "</tool_call>".data = _
    rw [show renderArgsL [] = [] from rfl, List.nil_append, List.append_assoc]
  rw [heq]
  have h := parse_render f [] (containsL_false_iff.mp hk) (by simp) (by simp) (Or.inl hne)
  simpa using h

/-- C9 (generalized): two sequential complete invocations with ordinary text
in between produce tool-call events with call indices 0 and 1, in order. -/
theorem C9_two_invocations (gen : Nat → String) (m : EnvMeta) (f1 f2 mid : String)
    (h1a : strContains f1 "<tool_call>" = false)
    (h1c : strContains f1 "</tool_call>" = false)
    (h1k : strContains f1 "<arg_key>" = false)
    (h1n : trimSpace f1 ≠ "")
    (h2a : strContains f2 "<tool_call>" = false)
    (h2c : strContains f2 "</tool_call>" = false)
    (h2k : strContains f2 "<arg_key>" = false)
    (h2n : trimSpace f2 ≠ "")
    (hma : strContains mid "<tool_call>" = false) :
    (processLines gen NewStreamTransformer
        (["<tool_call>", f1, "</tool_call>", mid, "<tool_call>", f2, "</tool_call>"].map
          (fun s => SSELine.chunk (mkChunk m s none)))).2 =
      [placeholderLine m, placeholderLine m,
       toolCallLine gen m 0 (trimSpace f1) "\x7b\x7d", SSELine.blank, finishLine m,
       SSELine.chunk (mkChunk m mid none),
       placeholderLine m, placeholderLine m,
       toolCallLine gen m 1 (trimSpace f2) "\x7b\x7d", SSELine.blank, finishLine m] := by
  have hopen : firstIdxStr "<tool_call>" "<tool_call>" = some 0 := rfl
  have hnotc : firstIdxStr "</tool_call>" "<tool_call>" = none := rfl
  have hno1 : firstIdxStr f1 "<tool_call>" = none :=
    firstIdxL_none_iff.mpr (containsL_false_iff.mp h1a)
  have hno2 : firstIdxStr f2 "<tool_call>" = none :=
    firstIdxL_none_iff.mpr (containsL_false_iff.mp h2a)
  have hnom : firstIdxStr mid "<tool_call>" = none :=
    firstIdxL_none_iff.mpr (containsL_false_iff.mp hma)
  have hnocl1 : containsL (("<tool_call>" : String) ++ f1).data tcClose = false := by
    show containsL ("<tool_call>".data ++ f1.data) tcClose = false
    exact containsL_append_false rfl h1c rfl
  have hnocl2 : containsL (("<tool_call>" : String) ++ f2).data tcClose = false := by
    show containsL ("<tool_call>".data ++ f2.data) tcClose = false
    exact containsL_append_false rfl h2c rfl
  have hcl1 : containsL ((("<tool_call>" : String) ++ f1) ++ "</tool_call>").data tcClose = true := by
    show containsL (("<tool_call>".data ++ f1.data) ++ "</tool_call>".data) tcClose = true
    rw [containsL_true_iff]
    exact (List.suffix_append _ _).isInfix
  have hcl2 : containsL ((("<tool_call>" : String) ++ f2) ++ "</tool_call>").data tcClose = true := by
    show containsL (("<tool_call>".data ++ f2.data) ++ "</tool_call>".data) tcClose = true
    rw [containsL_true_iff]
    exact (List.suffix_append _ _).isInfix
  simp only [List.map_cons, List.map_nil]
  rw [processLines]
  dsimp only
  rw [transformLine_open gen NewStreamTransformer m "<tool_call>" none hopen]
  rw [show NewStreamTransformer.toolCallIndex = 0 from rfl]
  dsimp only
  rw [processLines]
  dsimp only
  rw [transformLine_buffering gen _ m f1 rfl hno1 hnocl1]
  dsimp only
  rw [processLines]
  dsimp only
  rw [transformLine_flush gen _ m "</tool_call>" rfl hnotc hcl1]
  rw [flushToolCall_ok gen
      { buffer := ("<tool_call>" ++ f1) ++ "</tool_call>", inToolCall := true,
        lastChunk := some (mkChunk m "</tool_call>" none), toolCallIndex := 0 }
      ⟨trimSpace f1, []⟩ m "</tool_call>" none (parse_simple_invocation f1 h1k h1n) rfl]
  dsimp only
  rw [processLines]
  dsimp only
  rw [transformLine_pass gen _ m mid none rfl hnom (by simp)]
  dsimp only
  rw [processLines]
  dsimp only
  rw [transformLine_open gen _ m "<tool_call>" none hopen]
  dsimp only
  rw [processLines]
  dsimp only
  rw [transformLine_buffering gen _ m f2 rfl hno2 hnocl2]
  dsimp only
  rw [processLines]
  dsimp only
  rw [transformLine_flush gen _ m "</tool_call>" rfl hnotc hcl2]
  rw [flushToolCall_ok gen
      { buffer := ("<tool_call>" ++ f2) ++ "</tool_call>", inToolCall := true,
        lastChunk := some (mkChunk m "</tool_call>" none), toolCallIndex := 0 + 1 }
      ⟨trimSpace f2, []⟩ m "</tool_call>" none (parse_simple_invocation f2 h2k h2n) rfl]
  rw [processLines]
  rfl

/-- C9 witness: the repository's own two-invocation stream. -/
theorem C9_two_invocations_witness :
    (processLines genZero NewStreamTransformer
        (["<tool_call>", "func1", "</tool_call>", "中间内容", "<tool_call>", "func2",
          "</tool_call>"].map (fun s => SSELine.chunk (mkChunk testMeta s none)))).2 =
      [placeholderLine testMeta, placeholderLine testMeta,
       toolCallLine genZero testMeta 0 (trimSpace "func1") "\x7b\x7d", SSELine.blank,
       finishLine testMeta,
       SSELine.chunk (mkChunk testMeta "中间内容" none),
       placeholderLine testMeta, placeholderLine testMeta,
       toolCallLine genZero testMeta 1 (trimSpace "func2") "\x7b\x7d", SSELine.blank,
       finishLine testMeta] :=
  C9_two_invocations genZero testMeta "func1" "func2" "中间内容"
    rfl rfl rfl (by decide) rfl rfl rfl (by decide) rfl

lemma mem_insertLast {m : List (String × String)} {k v : String} {p : String × String}
    (hmem : p ∈ insertLast m k v) : p = (k, v) ∨ (p ∈ m ∧ p.1 ≠ k) := by
  unfold insertLast at hmem
  split at hmem
  next hany =>
    rcases List.mem_map.mp hmem with ⟨q, hq, hmap⟩
    by_cases h : q.1 == k
    · rw [if_pos h] at hmap
      exact Or.inl hmap.symm
    · rw [if_neg h] at hmap
      refine Or.inr ⟨hmap ▸ hq, ?_⟩
      rw [← hmap]
      exact fun he => h (by simp [he])
  next hany =>
    rcases List.mem_append.mp hmem with h | h
    · refine Or.inr ⟨h, fun he => ?_⟩
      have : m.any (fun p => p.1 == k) = true := List.any_eq_true.mpr ⟨p, h, by simp [he]⟩
      exact hany this
    · simp at h
      exact Or.inl h

lemma keys_insertLast_present {m : List (String × String)} {k v : String}
    (hany : m.any (fun p => p.1 == k) = true) :
    (insertLast m k v).map Prod.fst = m.map Prod.fst := by
  unfold insertLast
  rw [if_pos hany, List.map_map]
  apply List.map_congr_left
  intro p _
  by_cases h : p.1 == k
  · simp only [Function.comp_apply, if_pos h]
    exact (eq_of_beq h).symm
  · simp only [Function.comp_apply, if_neg h]

lemma keys_insertLast_absent {m : List (String × String)} {k v : String}
    (hany : m.any (fun p => p.1 == k) = false) :
    (insertLast m k v).map Prod.fst = m.map Prod.fst ++ [k] := by
  unfold insertLast
  rw [if_neg (by simp [hany])]
  simp

lemma key_mem_insertLast {m : List (String × String)} (k v : String) :
    k ∈ (insertLast m k v).map Prod.fst := by
  cases hany : m.any (fun p => p.1 == k) with
  | true =>
    rw [keys_insertLast_present hany]
    rcases List.any_eq_true.mp hany with ⟨p, hp, hpk⟩
    have : p.1 = k := by simpa using hpk
    exact this ▸ List.mem_map_of_mem Prod.fst hp
  | false =>
    rw [keys_insertLast_absent hany]
    simp

lemma key_mem_insertLast_of_mem {m : List (String × String)} {k0 : String} (k v : String)
    (h : k0 ∈ m.map Prod.fst) : k0 ∈ (insertLast m k v).map Prod.fst := by
  cases hany : m.any (fun p => p.1 == k) with
  | true => rw [keys_insertLast_present hany]; exact h
  | false => rw [keys_insertLast_absent hany]; exact List.mem_append_left _ h

lemma nodup_keys_insertLast {m : List (String × String)} {k v : String}
    (h : (m.map Prod.fst).Nodup) : ((insertLast m k v).map Prod.fst).Nodup := by
  cases hany : m.any (fun p => p.1 == k) with
  | true => rw [keys_insertLast_present hany]; exact h
  | false =>
    rw [keys_insertLast_absent hany]
    have hk : k ∉ m.map Prod.fst := by
      intro hmem
      rcases List.mem_map.mp hmem with ⟨p, hp, hpk⟩
      have : m.any (fun p => p.1 == k) = true := List.any_eq_true.mpr ⟨p, hp, by simp [hpk]⟩
      rw [hany] at this
      exact absurd this (by simp)
    simp [List.nodup_append, hk, h]

lemma lastValue_append_one (k : String) (xs : List ToolCallArg) (a : ToolCallArg) :
    lastValue k (xs ++ [a]) = if a.key == k then some a.value else lastValue k xs := by
  unfold lastValue
  rw [List.foldl_append]
  rfl

lemma buildMap_invariant (args : List ToolCallArg) :
    ((buildMap args).map Prod.fst).Nodup ∧
    (∀ p ∈ buildMap args, lastValue p.1 args = some p.2) ∧
    (∀ a ∈ args, a.key ∈ (buildMap args).map Prod.fst) := by
  suffices h : ∀ (rest done : List ToolCallArg) (m : List (String × String)),
      (m.map Prod.fst).Nodup →
      (∀ p ∈ m, lastValue p.1 done = some p.2) →
      (∀ a ∈ done, a.key ∈ m.map Prod.fst) →
      ((rest.foldl (fun m a => insertLast m a.key a.value) m).map Prod.fst).Nodup ∧
      (∀ p ∈ rest.foldl (fun m a => insertLast m a.key a.value) m,
        lastValue p.1 (done ++ rest) = some p.2) ∧
      (∀ a ∈ done ++ rest,
        a.key ∈ (rest.foldl (fun m a => insertLast m a.key a.value) m).map Prod.fst) by
    have := h args [] [] (by simp) (by simp) (by simp)
    simpa [buildMap] using this
  intro rest
  induction rest with
  | nil =>
    intro done m h1 h2 h3
    refine ⟨h1, ?_, ?_⟩
    · simpa using h2
    · simpa using h3
  | cons a rest2 ih =>
    intro done m h1 h2 h3
    have h1n : ((insertLast m a.key a.value).map Prod.fst).Nodup := nodup_keys_insertLast h1
    have h2n : ∀ p ∈ insertLast m a.key a.value,
        lastValue p.1 (done ++ [a]) = some p.2 := by
      intro p hp
      rcases mem_insertLast hp with hpe | ⟨hpm, hpk⟩
      · rw [lastValue_append_one, hpe]
        simp
      · rw [lastValue_append_one, if_neg (by simpa using fun he => hpk (by rw [he]))]
        exact h2 p hpm
    have h3n : ∀ b ∈ done ++ [a], b.key ∈ (insertLast m a.key a.value).map Prod.fst := by
      intro b hb
      rcases List.mem_append.mp hb with hbd | hba
      · exact key_mem_insertLast_of_mem _ _ (h3 b hbd)
      · simp at hba
        subst hba
        exact key_mem_insertLast _ _
    have := ih (done ++ [a]) (insertLast m a.key a.value) h1n h2n h3n
    simpa [List.append_assoc] using this

lemma insertPairSorted_perm (p : String × String) (l : List (String × String)) :
    (insertPairSorted p l).Perm (p :: l) := by
  induction l with
  | nil => exact List.Perm.refl _
  | cons q t ih =>
    unfold insertPairSorted
    split
    · exact List.Perm.refl _
    · exact (ih.cons q).trans (List.Perm.swap p q t)

lemma sortPairs_perm (l : List (String × String)) : (sortPairs l).Perm l := by
  induction l with
  | nil => exact List.Perm.refl _
  | cons q t ih =>
    show (insertPairSorted q (sortPairs t)).Perm (q :: t)
    exact (insertPairSorted_perm q (sortPairs t)).trans (ih.cons q)

/-- C7 (confirmed): the canonical argument-object serialization has no
duplicate keys, retains for every key the last value bound to it in list
order, keeps a key for every argument of the list, and serializes the empty
list to the empty object. -/
theorem C7_last_write_wins (args : List ToolCallArg) :
    argsToJSON [] = "\x7b\x7d" ∧
    ((canonicalPairs args).map Prod.fst).Nodup ∧
    (∀ p ∈ canonicalPairs args, lastValue p.1 args = some p.2) ∧
    (∀ a ∈ args, a.key ∈ (canonicalPairs args).map Prod.fst) := by
  obtain ⟨h1, h2, h3⟩ := buildMap_invariant args
  have hperm := sortPairs_perm (buildMap args)
  refine ⟨rfl, ?_, ?_, ?_⟩
  · exact ((hperm.map Prod.fst).nodup_iff).mpr h1
  · intro p hp
    exact h2 p (hperm.mem_iff.mp hp)
  · intro a ha
    exact (hperm.map Prod.fst).mem_iff.mpr (h3 a ha)

/-- C7 witness: last-write-wins on a duplicate key. -/
theorem C7_last_write_wins_witness :
    lastValue "b" [⟨"b", "1"⟩, ⟨"a", "2"⟩, ⟨"b", "3"⟩] = some "3" :=
  (C7_last_write_wins [⟨"b", "1"⟩, ⟨"a", "2"⟩, ⟨"b", "3"⟩]).2.2.1 ("b", "3") (by
    have hb : buildMap [⟨"b", "1"⟩, ⟨"a", "2"⟩, ⟨"b", "3"⟩] = [("b", "3"), ("a", "2")] := rfl
    have hmem : ("b", "3") ∈ buildMap [⟨"b", "1"⟩, ⟨"a", "2"⟩, ⟨"b", "3"⟩] := by
      rw [hb]
      simp
    exact (sortPairs_perm _).mem_iff.mpr hmem)

end Toolcallfix